import Mathlib

/-!
Verification of the ZeroTier `Address` value type (node/Address.hpp).

An `Address` is a 40-bit node identifier stored in a `uint64_t` field `_a`.
We embed the class shallowly: the machine integer becomes a `Nat` with
explicit masking (`&&& 0xffffffffff`, `% 2 ^ 64` where relevant), raw byte
buffers become `List Nat` whose elements are byte values, and each member
function becomes a Lean function on the `Address` structure.
-/

/-- ZT_ADDRESS_LENGTH. Modelled from the spec: the constant lives in
Constants.hpp, which is not part of this excerpt; the spec fixes the wire
form at exactly 5 bytes (40 bits). -/
def ZT_ADDRESS_LENGTH : Nat := 5

/-- ZT_ADDRESS_RESERVED_PREFIX. Modelled from the spec: the constant lives
in Constants.hpp, which is not part of this excerpt; the doc comment of
`isReserved` and the spec fix the reserved top byte at 0xff. -/
def ZT_ADDRESS_RESERVED_PREFIX : Nat := 0xff

/-- Address: the class holds a single private `uint64_t _a`. -/
structure Address where
  _a : Nat
deriving DecidableEq, Repr

/-- Address(): default construction, `_a(0)`. -/
def Address.mkNull : Address := ⟨0⟩

/-- Address(const Address &a): copy construction, `_a(a._a)`. -/
def Address.mkCopy (a : Address) : Address := ⟨a._a⟩

/-- Address(uint64_t a): `_a(a & 0xffffffffffULL)`. -/
def Address.mkU64 (a : Nat) : Address := ⟨a &&& 0xffffffffff⟩

/-- operator=(const Address &a): `_a = a._a`. -/
def Address.assign (_x : Address) (a : Address) : Address := ⟨a._a⟩

/-- operator=(const uint64_t a): `_a = (a & 0xffffffffffULL)`. -/
def Address.assignU64 (_x : Address) (a : Nat) : Address := ⟨a &&& 0xffffffffff⟩

/-- setTo(const void *bits, unsigned int len): if `len < ZT_ADDRESS_LENGTH`
the stored value becomes 0; otherwise the first five bytes are read through
a `const unsigned char *` (hence the `% 256` on each element) and packed
big-endian with shifts and ors, exactly as the source does. -/
def Address.setTo (bits : List Nat) (len : Nat) : Address :=
  if len < ZT_ADDRESS_LENGTH then ⟨0⟩
  else
    ⟨((((bits.getD 0 0 % 256) <<< 32 ||| (bits.getD 1 0 % 256) <<< 24) |||
        (bits.getD 2 0 % 256) <<< 16) ||| (bits.getD 3 0 % 256) <<< 8) |||
      (bits.getD 4 0 % 256)⟩

/-- Address(const void *bits, unsigned int len): delegates to `setTo`. -/
def Address.mkBytes (bits : List Nat) (len : Nat) : Address := Address.setTo bits len

/-- copyTo(void *bits, unsigned int len): if `len < ZT_ADDRESS_LENGTH` the
function returns without writing; otherwise it stores the five big-endian
bytes of `_a` at positions 0..4 of the destination, one pointer write per
byte, leaving the rest of the buffer untouched. -/
def Address.copyTo (x : Address) (bits : List Nat) (len : Nat) : List Nat :=
  if len < ZT_ADDRESS_LENGTH then bits
  else
    ((((bits.set 0 ((x._a >>> 32) &&& 0xff)).set 1 ((x._a >>> 24) &&& 0xff)).set 2
        ((x._a >>> 16) &&& 0xff)).set 3 ((x._a >>> 8) &&& 0xff)).set 4 (x._a &&& 0xff)

/-- toInt(): returns `_a`. -/
def Address.toInt (x : Address) : Nat := x._a

/-- hashCode(): `(unsigned long)_a`; the cast truncates to the width `w`
of the host's `unsigned long`, modelled as reduction modulo `2 ^ w`. -/
def Address.hashCode (w : Nat) (x : Address) : Nat := x._a % 2 ^ w

/-- operator bool(): `_a != 0`. -/
def Address.toBool (x : Address) : Bool := x._a != 0

/-- zero(): `_a = 0`. -/
def Address.zero (_x : Address) : Address := ⟨0⟩

/-- isReserved(): `(!_a) || ((_a >> 32) == ZT_ADDRESS_RESERVED_PREFIX)`. -/
def Address.isReserved (x : Address) : Bool :=
  (x._a == 0) || (x._a >>> 32 == ZT_ADDRESS_RESERVED_PREFIX)

/-- operator[](unsigned int i): `(unsigned char)((_a >> (32 - (i * 8))) & 0xff)`. -/
def Address.getByte (x : Address) (i : Nat) : Nat := (x._a >>> (32 - i * 8)) &&& 0xff

/-- operator==(const uint64_t &a): `_a == (a & 0xffffffffffULL)`. -/
def Address.beqU64 (x : Address) (a : Nat) : Bool := x._a == (a &&& 0xffffffffff)

/-- operator!=(const uint64_t &a): `_a != (a & 0xffffffffffULL)`. -/
def Address.bneU64 (x : Address) (a : Nat) : Bool := x._a != (a &&& 0xffffffffff)

/-- operator>(const uint64_t &a): `_a > (a & 0xffffffffffULL)`. -/
def Address.bgtU64 (x : Address) (a : Nat) : Bool := decide (x._a > (a &&& 0xffffffffff))

/-- operator<(const uint64_t &a): `_a < (a & 0xffffffffffULL)`. -/
def Address.bltU64 (x : Address) (a : Nat) : Bool := decide (x._a < (a &&& 0xffffffffff))

/-- operator>=(const uint64_t &a): `_a >= (a & 0xffffffffffULL)`. -/
def Address.bgeU64 (x : Address) (a : Nat) : Bool := decide (x._a ≥ (a &&& 0xffffffffff))

/-- operator<=(const uint64_t &a): `_a <= (a & 0xffffffffffULL)`. -/
def Address.bleU64 (x : Address) (a : Nat) : Bool := decide (x._a ≤ (a &&& 0xffffffffff))

/-- operator==(const Address &a): `_a == a._a`. -/
def Address.beq (x y : Address) : Bool := x._a == y._a

/-- operator!=(const Address &a): `_a != a._a`. -/
def Address.bne (x y : Address) : Bool := x._a != y._a

/-- operator>(const Address &a): `_a > a._a`. -/
def Address.bgt (x y : Address) : Bool := decide (x._a > y._a)

/-- operator<(const Address &a): `_a < a._a`. -/
def Address.blt (x y : Address) : Bool := decide (x._a < y._a)

/-- operator>=(const Address &a): `_a >= a._a`. -/
def Address.bge (x y : Address) : Bool := decide (x._a ≥ y._a)

/-- operator<=(const Address &a): `_a <= a._a`. -/
def Address.ble (x y : Address) : Bool := decide (x._a ≤ y._a)

/-- hexDigitChar. Modelled from the spec: the lowercase hexadecimal digit
character used by the printf-style `%x` conversion of the formatting utility
(Utils::ztsnprintf, not part of this excerpt): digits 0-9 map to '0'-'9'
and 10-15 to 'a'-'f'. -/
def hexDigitChar (n : Nat) : Char := if n < 10 then Char.ofNat (48 + n) else Char.ofNat (87 + n)

/-- natToHexAux. Modelled from the spec: the unpadded lowercase hexadecimal
rendering of `n`, most-significant nibble first, as produced by `%llx`.
The fuel argument bounds the digit count; 16 digits cover every uint64. -/
def natToHexAux : Nat → Nat → List Char
  | 0, _ => []
  | fuel + 1, n =>
    if n < 16 then [hexDigitChar n]
    else natToHexAux fuel (n / 16) ++ [hexDigitChar (n % 16)]

/-- toString(): `ztsnprintf(buf, 16, "%.10llx", _a)` then `std::string(buf)`.
Modelled from the spec: the precision 10 pads the hex rendering with leading
zeros to at least 10 digits, and the 16-byte buffer truncates the text to at
most 15 characters. -/
def Address.toString (x : Address) : String :=
  let digits := natToHexAux 16 x._a
  String.mk ((List.replicate (10 - digits.length) '0' ++ digits).take 15)

/-- hexCharVal. Modelled from the spec: the numeric value of a lowercase
hexadecimal digit character, used to state the hex round-trip property. -/
def hexCharVal (c : Char) : Nat := if c.toNat ≤ 57 then c.toNat - 48 else c.toNat - 87

/-- parseHexString. Modelled from the spec: reparse a hexadecimal string,
most-significant digit first, used to state the hex round-trip property. -/
def parseHexString (s : String) : Nat :=
  s.toList.foldl (fun acc c => acc * 16 + hexCharVal c) 0

/-! Helper lemmas about the bit manipulations used by the class. -/

/-- Disjoint bitwise or is addition: if `a` is zero below bit `n` and `b`
lives below bit `n`, then `a ||| b = a + b`. -/
lemma lor_eq_add_help (a b n : Nat) (ha : a % 2 ^ n = 0) (hb : b < 2 ^ n) : a ||| b = a + b := by
  obtain ⟨q, rfl⟩ := Nat.dvd_of_mod_eq_zero ha
  exact (Nat.mul_add_lt_is_or hb q).symm

/-- Packing five bytes with shifts and ors equals the big-endian weighted sum. -/
lemma five_bytes (b0 b1 b2 b3 b4 : Nat)
    (h1 : b1 < 256) (h2 : b2 < 256) (h3 : b3 < 256) (h4 : b4 < 256) :
    (((b0 <<< 32 ||| b1 <<< 24) ||| b2 <<< 16) ||| b3 <<< 8) ||| b4
      = b0 * 2 ^ 32 + b1 * 2 ^ 24 + b2 * 2 ^ 16 + b3 * 2 ^ 8 + b4 := by
  simp only [Nat.shiftLeft_eq]
  have s1 : b0 * 2 ^ 32 ||| b1 * 2 ^ 24 = b0 * 2 ^ 32 + b1 * 2 ^ 24 := by
    apply lor_eq_add_help _ _ 32 <;> omega
  rw [s1]
  have s2 : b0 * 2 ^ 32 + b1 * 2 ^ 24 ||| b2 * 2 ^ 16
      = b0 * 2 ^ 32 + b1 * 2 ^ 24 + b2 * 2 ^ 16 := by
    apply lor_eq_add_help _ _ 24 <;> omega
  rw [s2]
  have s3 : b0 * 2 ^ 32 + b1 * 2 ^ 24 + b2 * 2 ^ 16 ||| b3 * 2 ^ 8
      = b0 * 2 ^ 32 + b1 * 2 ^ 24 + b2 * 2 ^ 16 + b3 * 2 ^ 8 := by
    apply lor_eq_add_help _ _ 16 <;> omega
  rw [s3]
  apply lor_eq_add_help _ _ 8 <;> omega

/-- Extracting a byte with a shift and a mask is division and remainder. -/
lemma shr_and255 (x k : Nat) : (x >>> k) &&& 255 = x / 2 ^ k % 256 := by
  rw [Nat.shiftRight_eq_div_pow]
  simpa using Nat.and_pow_two_sub_one_eq_mod (x / 2 ^ k) 8

/-- Masking with 0xff is remainder modulo 256. -/
lemma and255 (x : Nat) : x &&& 255 = x % 256 := by
  simpa using Nat.and_pow_two_sub_one_eq_mod x 8

/-- Masking with 0xffffffffff is remainder modulo 2 ^ 40. -/
lemma and40 (x : Nat) : x &&& 0xffffffffff = x % 2 ^ 40 := by
  simpa using Nat.and_pow_two_sub_one_eq_mod x 40

/-- Lists of length at least five start with five explicit elements. -/
lemma exists_five (l : List Nat) (h : 5 ≤ l.length) :
    ∃ c0 c1 c2 c3 c4 rest, l = c0 :: c1 :: c2 :: c3 :: c4 :: rest := by
  match l, h with
  | c0 :: c1 :: c2 :: c3 :: c4 :: rest, _ => exact ⟨c0, c1, c2, c3, c4, rest, rfl⟩

/-- Evaluation of `setTo` on a buffer long enough, as a weighted byte sum. -/
lemma setTo_cons (c0 c1 c2 c3 c4 : Nat) (rest : List Nat) (len : Nat) (h : 5 ≤ len) :
    Address.setTo (c0 :: c1 :: c2 :: c3 :: c4 :: rest) len
      = ⟨c0 % 256 * 2 ^ 32 + c1 % 256 * 2 ^ 24 + c2 % 256 * 2 ^ 16 + c3 % 256 * 2 ^ 8 +
          c4 % 256⟩ := by
  unfold Address.setTo ZT_ADDRESS_LENGTH
  rw [if_neg (by omega)]
  simp only [List.getD_cons_zero, List.getD_cons_succ]
  congr 1
  exact five_bytes _ _ _ _ _ (by omega) (by omega) (by omega) (by omega)

/-- Evaluation of `copyTo` on a buffer long enough: the five big-endian
bytes of the value followed by the untouched tail. -/
lemma copyTo_cons (x : Address) (c0 c1 c2 c3 c4 : Nat) (rest : List Nat) (len : Nat)
    (h : 5 ≤ len) :
    Address.copyTo x (c0 :: c1 :: c2 :: c3 :: c4 :: rest) len
      = ((x._a >>> 32) &&& 255) :: ((x._a >>> 24) &&& 255) :: ((x._a >>> 16) &&& 255) ::
          ((x._a >>> 8) &&& 255) :: (x._a &&& 255) :: rest := by
  unfold Address.copyTo ZT_ADDRESS_LENGTH
  rw [if_neg (by omega)]
  rfl

/-- Whatever the buffer and declared length, `setTo` stores at most 40 bits. -/
lemma setTo_lt (bits : List Nat) (len : Nat) : (Address.setTo bits len).toInt < 2 ^ 40 := by
  unfold Address.setTo ZT_ADDRESS_LENGTH
  by_cases h : len < 5
  · rw [if_pos h]
    norm_num [Address.toInt]
  · rw [if_neg h]
    unfold Address.toInt
    dsimp only
    rw [five_bytes _ _ _ _ _ (by omega) (by omega) (by omega) (by omega)]
    have g0 : bits.getD 0 0 % 256 < 256 := by omega
    have g1 : bits.getD 1 0 % 256 < 256 := by omega
    have g2 : bits.getD 2 0 % 256 < 256 := by omega
    have g3 : bits.getD 3 0 % 256 < 256 := by omega
    have g4 : bits.getD 4 0 % 256 < 256 := by omega
    omega

/-- Taking five elements of a list that starts with five explicit elements. -/
lemma take_five (a b c d e : Nat) (t : List Nat) :
    (a :: b :: c :: d :: e :: t).take 5 = [a, b, c, d, e] := rfl

/-- C1: serialization/parsing round-trip. Writing an address value below
2 ^ 40 with copyTo into a buffer of declared length at least 5 and parsing
the result with setTo yields the same address; conversely, parsing any
5-byte big-endian sequence and serializing it with copyTo reproduces
exactly those 5 bytes. -/
theorem C1_roundtrip :
    (∀ (a : Nat) (bits : List Nat) (len : Nat), a < 2 ^ 40 → bits.length = len → 5 ≤ len →
      Address.setTo (Address.copyTo ⟨a⟩ bits len) len = ⟨a⟩)
    ∧ (∀ (b dst : List Nat) (len : Nat), b.length = 5 → (∀ v ∈ b, v < 256) →
      dst.length = len → 5 ≤ len →
      (Address.copyTo (Address.setTo b 5) dst len).take 5 = b) := by
  constructor
  · intro a bits len ha hl h5
    obtain ⟨c0, c1, c2, c3, c4, rest, rfl⟩ := exists_five bits (by omega)
    rw [copyTo_cons _ _ _ _ _ _ _ _ h5, setTo_cons _ _ _ _ _ _ _ h5]
    dsimp only
    simp only [Address.mk.injEq, shr_and255, and255]
    omega
  · intro b dst len hb hv hdl h5
    obtain ⟨b0, b1, b2, b3, b4, brest, rfl⟩ := exists_five b (by omega)
    have hrest : brest = [] := by
      simp only [List.length_cons] at hb
      exact List.eq_nil_of_length_eq_zero (by omega)
    subst hrest
    have h0 : b0 < 256 := hv _ (by simp)
    have h1 : b1 < 256 := hv _ (by simp)
    have h2 : b2 < 256 := hv _ (by simp)
    have h3 : b3 < 256 := hv _ (by simp)
    have h4 : b4 < 256 := hv _ (by simp)
    obtain ⟨d0, d1, d2, d3, d4, drest, rfl⟩ := exists_five dst (by omega)
    rw [setTo_cons _ _ _ _ _ _ 5 (by omega), copyTo_cons _ _ _ _ _ _ _ _ h5, take_five]
    dsimp only
    simp only [shr_and255, and255, List.cons.injEq, and_true]
    omega

/-- C2: 40-bit masking invariant. Construction and assignment from a 64-bit
integer store exactly the low 40 bits, and every construction and assignment
path (default, copy, 64-bit integer, byte parse, zero) leaves the stored
value below 2 ^ 40. -/
theorem C2_masking_paths (v : Nat) (_hv : v < 2 ^ 64) (x y : Address)
    (bits : List Nat) (len : Nat) :
    (Address.mkU64 v).toInt = v &&& 0xffffffffff
    ∧ (Address.assignU64 x v).toInt = v &&& 0xffffffffff
    ∧ Address.mkNull.toInt < 2 ^ 40
    ∧ (Address.mkU64 v).toInt < 2 ^ 40
    ∧ (Address.assignU64 x v).toInt < 2 ^ 40
    ∧ (Address.setTo bits len).toInt < 2 ^ 40
    ∧ (Address.mkBytes bits len).toInt < 2 ^ 40
    ∧ (Address.zero x).toInt < 2 ^ 40
    ∧ (x.toInt < 2 ^ 40 → (Address.mkCopy x).toInt < 2 ^ 40)
    ∧ (y.toInt < 2 ^ 40 → (x.assign y).toInt < 2 ^ 40) := by
  have hmk : (Address.mkU64 v).toInt < 2 ^ 40 := by
    show v &&& 0xffffffffff < 2 ^ 40
    rw [and40]
    omega
  exact ⟨rfl, rfl, by norm_num [Address.mkNull, Address.toInt], hmk, hmk,
    setTo_lt bits len, setTo_lt bits len, by norm_num [Address.zero, Address.toInt],
    fun h => h, fun h => h⟩

/-- C3: reserved check. Under the 40-bit invariant, isReserved is true
exactly when the value is zero or its most-significant byte (bits 32-39)
equals the reserved-prefix constant; in particular the two concrete
examples of the spec evaluate as stated. -/
theorem C3_reserved_rule (x : Address) (hx : x.toInt < 2 ^ 40) :
    (x.isReserved = true ↔
      (x.toInt = 0 ∨ (x.toInt >>> 32) &&& 0xff = ZT_ADDRESS_RESERVED_PREFIX))
    ∧ (Address.mkU64 0xFF0000000000).isReserved = true
    ∧ (Address.mkU64 0x1200000000).isReserved = false := by
  refine ⟨?_, by decide, by decide⟩
  unfold Address.isReserved Address.toInt ZT_ADDRESS_RESERVED_PREFIX at *
  rw [shr_and255, Nat.shiftRight_eq_div_pow]
  simp only [Bool.or_eq_true, beq_iff_eq]
  omega

/-- C4: undersized parse degrades to null. For any byte sequence and any
declared length below 5, setTo and the byte-sequence constructor yield the
null address, whatever the bytes. -/
theorem C4_undersized_parse (bits : List Nat) (len : Nat) (h : len < 5) :
    (Address.setTo bits len).toInt = 0 ∧ (Address.mkBytes bits len).toInt = 0 := by
  have hz : Address.setTo bits len = ⟨0⟩ := by
    unfold Address.setTo ZT_ADDRESS_LENGTH
    rw [if_pos (by omega)]
  exact ⟨by rw [hz]; rfl, by unfold Address.mkBytes; rw [hz]; rfl⟩

/-- C5: copyTo frame condition. On a destination of declared length below 5
the call writes nothing; otherwise it writes exactly the five big-endian
bytes of the value at positions 0..4 and leaves positions 5 and beyond, and
the buffer length, unchanged. -/
theorem C5_copyTo_frame (x : Address) (bits : List Nat) (len : Nat)
    (hlen : bits.length = len) :
    (len < 5 → x.copyTo bits len = bits)
    ∧ (5 ≤ len →
        (x.copyTo bits len).take 5 =
          [(x.toInt >>> 32) &&& 0xff, (x.toInt >>> 24) &&& 0xff, (x.toInt >>> 16) &&& 0xff,
            (x.toInt >>> 8) &&& 0xff, x.toInt &&& 0xff]
        ∧ (x.copyTo bits len).drop 5 = bits.drop 5
        ∧ (x.copyTo bits len).length = bits.length) := by
  constructor
  · intro h
    unfold Address.copyTo ZT_ADDRESS_LENGTH
    rw [if_pos (by omega)]
  · intro h5
    obtain ⟨c0, c1, c2, c3, c4, rest, rfl⟩ := exists_five bits (by omega)
    rw [copyTo_cons _ _ _ _ _ _ _ _ h5]
    exact ⟨rfl, rfl, rfl⟩

/-- C6: total order consistency. The six relational operators agree with
the unsigned order of the stored 40-bit values, exactly one of less, equal,
greater holds, less-or-equal is the disjunction of less and equal, and each
operator against a raw 64-bit integer compares against the integer masked
to 40 bits. -/
theorem C6_order_consistent (x y : Address) (v : Nat) :
    (x.blt y = true ↔ x.toInt < y.toInt)
    ∧ (x.beq y = true ↔ x.toInt = y.toInt)
    ∧ (x.bgt y = true ↔ y.toInt < x.toInt)
    ∧ (x.bne y = true ↔ ¬(x.beq y = true))
    ∧ (x.ble y = true ↔ (x.blt y = true ∨ x.beq y = true))
    ∧ (x.bge y = true ↔ (x.bgt y = true ∨ x.beq y = true))
    ∧ ((x.blt y = true ∧ ¬(x.beq y = true) ∧ ¬(x.bgt y = true))
        ∨ (¬(x.blt y = true) ∧ x.beq y = true ∧ ¬(x.bgt y = true))
        ∨ (¬(x.blt y = true) ∧ ¬(x.beq y = true) ∧ x.bgt y = true))
    ∧ (x.beqU64 v = true ↔ x.toInt = v &&& 0xffffffffff)
    ∧ (x.bneU64 v = true ↔ ¬(x.toInt = v &&& 0xffffffffff))
    ∧ (x.bltU64 v = true ↔ x.toInt < (v &&& 0xffffffffff))
    ∧ (x.bgtU64 v = true ↔ (v &&& 0xffffffffff) < x.toInt)
    ∧ (x.bleU64 v = true ↔ (x.bltU64 v = true ∨ x.beqU64 v = true))
    ∧ (x.bgeU64 v = true ↔ (x.bgtU64 v = true ∨ x.beqU64 v = true))
    ∧ x.beqU64 v = x.beq (Address.mkU64 v)
    ∧ x.bneU64 v = x.bne (Address.mkU64 v)
    ∧ x.bltU64 v = x.blt (Address.mkU64 v)
    ∧ x.bgtU64 v = x.bgt (Address.mkU64 v)
    ∧ x.bleU64 v = x.ble (Address.mkU64 v)
    ∧ x.bgeU64 v = x.bge (Address.mkU64 v) := by
  unfold Address.blt Address.beq Address.bgt Address.bne Address.ble Address.bge
    Address.beqU64 Address.bneU64 Address.bltU64 Address.bgtU64 Address.bleU64
    Address.bgeU64 Address.mkU64 Address.toInt
  dsimp only
  simp only [decide_eq_true_eq, beq_iff_eq, bne_iff_ne, ne_eq]
  exact ⟨trivial, trivial, trivial, trivial, by omega, by omega, by omega,
    trivial, trivial, trivial, trivial, by omega, by omega,
    trivial, trivial, trivial, trivial, trivial, trivial⟩

/-- Every lowercase hexadecimal digit character decodes back to its value. -/
lemma hexCharVal_hexDigitChar (m : Nat) (h : m < 16) : hexCharVal (hexDigitChar m) = m := by
  interval_cases m <;> decide

/-- Every hexadecimal digit character is a decimal digit or one of 'a'-'f'. -/
lemma hexDigitChar_range (m : Nat) (h : m < 16) :
    ('0' ≤ hexDigitChar m ∧ hexDigitChar m ≤ '9') ∨
      ('a' ≤ hexDigitChar m ∧ hexDigitChar m ≤ 'f') := by
  interval_cases m <;> decide

/-- With enough fuel, a value below 16 ^ k renders in at most k hex digits. -/
lemma natToHexAux_length (fuel n k : Nat) (h1 : 1 ≤ k) (hk : k ≤ fuel) (hn : n < 16 ^ k) :
    (natToHexAux fuel n).length ≤ k := by
  induction fuel generalizing n k with
  | zero => omega
  | succ fuel ih =>
    unfold natToHexAux
    by_cases h : n < 16
    · rw [if_pos h]
      simpa using h1
    · rw [if_neg h]
      simp only [List.length_append, List.length_cons, List.length_nil]
      have hk2 : 2 ≤ k := by
        by_contra hc
        have hk1 : k = 1 := by omega
        subst hk1
        have : (16 : Nat) ^ 1 = 16 := by norm_num
        omega
      have hpow : 16 ^ (k - 1) * 16 = 16 ^ k := by
        rw [← pow_succ]
        congr 1
        omega
      have hdiv : n / 16 < 16 ^ (k - 1) := by omega
      have := ih (n / 16) (k - 1) (by omega) (by omega) hdiv
      omega

/-- With positive fuel the rendering has at least one digit. -/
lemma natToHexAux_length_pos (fuel n : Nat) (h : 1 ≤ fuel) :
    1 ≤ (natToHexAux fuel n).length := by
  obtain ⟨f, rfl⟩ : ∃ f, fuel = f + 1 := ⟨fuel - 1, by omega⟩
  unfold natToHexAux
  by_cases hn : n < 16
  · rw [if_pos hn]
    simp
  · rw [if_neg hn]
    simp

/-- Reparsing the hexadecimal rendering recovers the value. -/
lemma natToHexAux_parse (fuel n : Nat) (hn : n < 16 ^ fuel) :
    List.foldl (fun acc c => acc * 16 + hexCharVal c) 0 (natToHexAux fuel n) = n := by
  induction fuel generalizing n with
  | zero =>
    have hn0 : n = 0 := by simpa using hn
    subst hn0
    rfl
  | succ fuel ih =>
    unfold natToHexAux
    by_cases h : n < 16
    · rw [if_pos h]
      simp only [List.foldl_cons, List.foldl_nil, Nat.zero_mul, Nat.zero_add]
      exact hexCharVal_hexDigitChar n h
    · rw [if_neg h]
      rw [List.foldl_append]
      have hpow : 16 ^ fuel * 16 = 16 ^ (fuel + 1) := (pow_succ 16 fuel).symm
      have hdiv : n / 16 < 16 ^ fuel := by omega
      rw [ih (n / 16) hdiv]
      simp only [List.foldl_cons, List.foldl_nil]
      rw [hexCharVal_hexDigitChar _ (by omega)]
      omega

/-- Every character of the rendering is a lowercase hexadecimal digit. -/
lemma natToHexAux_chars (fuel n : Nat) (c : Char) (hc : c ∈ natToHexAux fuel n) :
    ('0' ≤ c ∧ c ≤ '9') ∨ ('a' ≤ c ∧ c ≤ 'f') := by
  induction fuel generalizing n with
  | zero => simp [natToHexAux] at hc
  | succ fuel ih =>
    unfold natToHexAux at hc
    by_cases h : n < 16
    · rw [if_pos h] at hc
      simp only [List.mem_singleton] at hc
      subst hc
      exact hexDigitChar_range n h
    · rw [if_neg h] at hc
      rw [List.mem_append] at hc
      rcases hc with hc | hc
      · exact ih _ hc
      · simp only [List.mem_singleton] at hc
        subst hc
        exact hexDigitChar_range _ (by omega)

/-- Folding the hex parser over leading zero padding keeps the accumulator. -/
lemma foldl_replicate_zero (m : Nat) :
    List.foldl (fun acc c => acc * 16 + hexCharVal c) 0 (List.replicate m '0') = 0 := by
  induction m with
  | zero => rfl
  | succ m ih =>
    rw [List.replicate_succ, List.foldl_cons]
    have h0 : (0 * 16 + hexCharVal '0') = 0 := by decide
    rw [h0, ih]

/-- C7: hex string rendering. For every address obeying the 40-bit
invariant, toString produces exactly 10 characters, each a lowercase
hexadecimal digit, which reparse most-significant-nibble-first to the
stored value; the null address renders as "0000000000" and
0x0123456789 renders as "0123456789". -/
theorem C7_toString_hex (x : Address) (hx : x.toInt < 2 ^ 40) :
    (x.toString).length = 10
    ∧ (∀ c ∈ (x.toString).toList, ('0' ≤ c ∧ c ≤ '9') ∨ ('a' ≤ c ∧ c ≤ 'f'))
    ∧ parseHexString (x.toString) = x.toInt
    ∧ Address.mkNull.toString = "0000000000"
    ∧ (Address.mkU64 0x0123456789).toString = "0123456789" := by
  have hxa : x._a < 2 ^ 40 := hx
  have hx10 : x._a < 16 ^ 10 := by
    have : (16 : Nat) ^ 10 = 2 ^ 40 := by norm_num
    omega
  have hx16 : x._a < 16 ^ 16 := by
    have : (16 : Nat) ^ 10 ≤ 16 ^ 16 := Nat.pow_le_pow_right (by norm_num) (by norm_num)
    omega
  have hlen10 : (natToHexAux 16 x._a).length ≤ 10 :=
    natToHexAux_length 16 x._a 10 (by norm_num) (by norm_num) hx10
  have hpos : 1 ≤ (natToHexAux 16 x._a).length := natToHexAux_length_pos 16 x._a (by norm_num)
  have hpadlen :
      (List.replicate (10 - (natToHexAux 16 x._a).length) '0' ++ natToHexAux 16 x._a).length
        = 10 := by
    simp only [List.length_append, List.length_replicate]
    omega
  have htake :
      (List.replicate (10 - (natToHexAux 16 x._a).length) '0' ++ natToHexAux 16 x._a).take 15
        = List.replicate (10 - (natToHexAux 16 x._a).length) '0' ++ natToHexAux 16 x._a :=
    List.take_of_length_le (by omega)
  have hstr : x.toString
      = String.mk (List.replicate (10 - (natToHexAux 16 x._a).length) '0' ++
          natToHexAux 16 x._a) := by
    unfold Address.toString
    dsimp only
    rw [htake]
  refine ⟨?_, ?_, ?_, by decide, by decide⟩
  · rw [hstr, String.length_mk, hpadlen]
  · intro c hc
    rw [hstr] at hc
    have hc' : c ∈ List.replicate (10 - (natToHexAux 16 x._a).length) '0' ++
        natToHexAux 16 x._a := hc
    rw [List.mem_append] at hc'
    rcases hc' with hc' | hc'
    · have : c = '0' := List.eq_of_mem_replicate hc'
      subst this
      exact Or.inl (by decide)
    · exact natToHexAux_chars 16 x._a c hc'
  · rw [hstr]
    unfold parseHexString
    have htl : (String.mk (List.replicate (10 - (natToHexAux 16 x._a).length) '0' ++
        natToHexAux 16 x._a)).toList
        = List.replicate (10 - (natToHexAux 16 x._a).length) '0' ++ natToHexAux 16 x._a := rfl
    rw [htl, List.foldl_append, foldl_replicate_zero, natToHexAux_parse 16 x._a hx16]
    rfl

/-- C8: byte indexing. For indices 0..4, operator[] returns the byte
`(toInt >> (32 - 8*i)) & 0xff`, which is the i-th most significant of the
five big-endian wire bytes, and the two concrete examples of the spec
evaluate as stated. -/
theorem C8_byte_index (x : Address) (i : Nat) (hi : i ≤ 4) :
    x.getByte i = (x.toInt >>> (32 - 8 * i)) &&& 0xff
    ∧ x.getByte i = (x.copyTo (List.replicate 5 0) 5).getD i 0
    ∧ (Address.mkU64 0x0102030405).getByte 0 = 0x01
    ∧ (Address.mkU64 0x0102030405).getByte 4 = 0x05 := by
  have hcopy : x.copyTo (List.replicate 5 0) 5
      = ((x._a >>> 32) &&& 255) :: ((x._a >>> 24) &&& 255) :: ((x._a >>> 16) &&& 255) ::
          ((x._a >>> 8) &&& 255) :: (x._a &&& 255) :: [] :=
    copyTo_cons x 0 0 0 0 0 [] 5 (by norm_num)
  refine ⟨?_, ?_, by decide, by decide⟩
  · unfold Address.getByte Address.toInt
    rw [Nat.mul_comm]
  · rw [hcopy]
    unfold Address.getByte
    interval_cases i <;> simp [List.getD]

/-- C9: hash consistency. hashCode is a function of the stored value alone,
so operator== implies equal hash codes at every host word width. -/
theorem C9_hash_consistent (w : Nat) (x y : Address) (h : x.beq y = true) :
    x.hashCode w = y.hashCode w := by
  unfold Address.beq at h
  rw [beq_iff_eq] at h
  unfold Address.hashCode
  rw [h]

/-- C10: hash identity and injectivity. For every host unsigned-long
width w, hashCode is the stored value reduced modulo 2 ^ w; consequently,
whenever w is at least 40, hashCode is injective on addresses obeying the
40-bit invariant. -/
theorem C10_hash_identity (w : Nat) (x y : Address)
    (hx : x.toInt < 2 ^ 40) (hy : y.toInt < 2 ^ 40) :
    x.hashCode w = x.toInt % 2 ^ w
    ∧ (40 ≤ w → x.hashCode w = y.hashCode w → x = y) := by
  refine ⟨rfl, ?_⟩
  intro hw h
  have hpow : (2 : Nat) ^ 40 ≤ 2 ^ w := Nat.pow_le_pow_right (by norm_num) hw
  unfold Address.hashCode at h
  have hxa : x._a < 2 ^ w := lt_of_lt_of_le hx hpow
  have hya : y._a < 2 ^ w := lt_of_lt_of_le hy hpow
  rw [Nat.mod_eq_of_lt hxa, Nat.mod_eq_of_lt hya] at h
  obtain ⟨xa⟩ := x
  obtain ⟨ya⟩ := y
  exact congrArg Address.mk h

/-- Witness for C1 at concrete inputs: the address 0x0123456789 survives a
serialize-parse cycle, and the byte sequence 01 02 03 04 05 survives a
parse-serialize cycle. -/
theorem C1_roundtrip_witness :
    Address.setTo (Address.copyTo ⟨4886718345⟩ [9, 9, 9, 9, 9, 7] 6) 6 = ⟨4886718345⟩
    ∧ (Address.copyTo (Address.setTo [1, 2, 3, 4, 5] 5) [0, 0, 0, 0, 0] 5).take 5
        = [1, 2, 3, 4, 5] :=
  ⟨C1_roundtrip.1 4886718345 [9, 9, 9, 9, 9, 7] 6 (by norm_num) rfl (by norm_num),
    C1_roundtrip.2 [1, 2, 3, 4, 5] [0, 0, 0, 0, 0] 5 rfl (by decide) rfl (by norm_num)⟩

/-- Witness for C2 at the concrete input 2 ^ 63. -/
theorem C2_masking_paths_witness :
    (Address.mkU64 (2 ^ 63)).toInt = 2 ^ 63 &&& 0xffffffffff
    ∧ (Address.mkU64 (2 ^ 63)).toInt < 2 ^ 40 :=
  ⟨(C2_masking_paths (2 ^ 63) (by norm_num) ⟨1⟩ ⟨2⟩ [1, 2, 3] 3).1,
    (C2_masking_paths (2 ^ 63) (by norm_num) ⟨1⟩ ⟨2⟩ [1, 2, 3] 3).2.2.2.1⟩

/-- Witness for C3 at a concrete reserved address. -/
theorem C3_reserved_rule_witness :
    (Address.mkU64 0xFF0000000000).isReserved = true
    ∧ (Address.mkU64 0x1200000000).isReserved = false :=
  ⟨(C3_reserved_rule ⟨0⟩ (by decide)).2.1, (C3_reserved_rule ⟨0⟩ (by decide)).2.2⟩

/-- Witness for C4 at a concrete undersized buffer of three 0xff bytes. -/
theorem C4_undersized_parse_witness :
    (Address.setTo [255, 255, 255] 3).toInt = 0
    ∧ (Address.mkBytes [255, 255, 255] 3).toInt = 0 :=
  C4_undersized_parse [255, 255, 255] 3 (by norm_num)

/-- Witness for C5 at concrete buffers: position 5 is untouched when the
buffer is long enough, and an undersized buffer is left entirely unchanged. -/
theorem C5_copyTo_frame_witness :
    ((Address.mk 4886718345).copyTo [0, 0, 0, 0, 0, 0] 6).drop 5 = [0]
    ∧ (Address.mk 4886718345).copyTo [7, 7, 7] 3 = [7, 7, 7] :=
  ⟨((C5_copyTo_frame ⟨4886718345⟩ [0, 0, 0, 0, 0, 0] 6 rfl).2 (by norm_num)).2.1,
    (C5_copyTo_frame ⟨4886718345⟩ [7, 7, 7] 3 rfl).1 (by norm_num)⟩

/-- Witness for C7 at the concrete address 0x0123456789. -/
theorem C7_toString_hex_witness :
    (Address.mk 4886718345).toString.length = 10
    ∧ parseHexString (Address.mk 4886718345).toString = 4886718345 :=
  ⟨(C7_toString_hex ⟨4886718345⟩ (by decide)).1,
    (C7_toString_hex ⟨4886718345⟩ (by decide)).2.2.1⟩

/-- Witness for C8 at the concrete address 0x0102030405 and indices 0 and 4. -/
theorem C8_byte_index_witness :
    (Address.mkU64 0x0102030405).getByte 0 = 0x01
    ∧ (Address.mkU64 0x0102030405).getByte 4 = 0x05 :=
  ⟨(C8_byte_index (Address.mkU64 0x0102030405) 0 (by norm_num)).2.2.1,
    (C8_byte_index (Address.mkU64 0x0102030405) 4 (by norm_num)).2.2.2⟩

/-- Witness for C9 at a concrete pair of equal addresses and width 64. -/
theorem C9_hash_consistent_witness :
    Address.hashCode 64 ⟨5⟩ = Address.hashCode 64 ⟨5⟩ :=
  C9_hash_consistent 64 ⟨5⟩ ⟨5⟩ (by decide)

/-- Witness for C10 at a concrete address: the identity at the narrow
width 32 and at width 64, and the injectivity consequence at width 64. -/
theorem C10_hash_identity_witness :
    Address.hashCode 32 ⟨5⟩ = Address.toInt ⟨5⟩ % 2 ^ 32
    ∧ Address.hashCode 64 ⟨5⟩ = Address.toInt ⟨5⟩ % 2 ^ 64
    ∧ (⟨5⟩ : Address) = ⟨5⟩ :=
  ⟨(C10_hash_identity 32 ⟨5⟩ ⟨5⟩ (by decide) (by decide)).1,
    (C10_hash_identity 64 ⟨5⟩ ⟨5⟩ (by decide) (by decide)).1,
    (C10_hash_identity 64 ⟨5⟩ ⟨5⟩ (by decide) (by decide)).2 (by norm_num) rfl⟩
